import Mathlib

/-!
Verification development for the `rsys_log` crate (structured-log
formatting and multi-subscriber broadcast).

Embedding conventions:
- Rust `String`/`&str` values are modelled as `Str := List Char`; concrete
  literals are written `str "..."`.
- `chrono::DateTime<Utc>` timestamps are modelled by the `Timestamp`
  record of calendar fields; `Utc::now()` becomes an explicit `now`
  parameter.
- The three global cells (level `AtomicU8`, color-scheme `RwLock`,
  subscriber list `Mutex<Vec<Sender>>`) are modelled by an explicit
  `LogState` record threaded through the operations; an `mpsc` channel is
  a `Subscriber` record whose `closed` flag corresponds to the receiver
  having been dropped (so `sender.send` fails) and whose `queue` is the
  list of delivered strings in FIFO order.
- Fallible operations return `Option`, matching the Rust source.
-/

/-- Rust strings, modelled as lists of characters. -/
abbrev Str : Type := List Char

/-- Convert a Lean string literal to the `Str` model. -/
def str (s : String) : Str := s.data

namespace RsysLog

/-- `enum Level` from `rsys_log/src/lib.rs` (variants in source order,
`Trace, Debug, Info, Warn, Error`). -/
inductive Level where
  | Trace
  | Debug
  | Info
  | Warn
  | Error
deriving DecidableEq, Repr

namespace Level

/-- The Rust discriminant of each variant (`self as u8`): the enum has no
explicit discriminants, so they are 0,1,2,3,4 in declaration order. -/
def toU8 : Level → Nat
  | .Trace => 0
  | .Debug => 1
  | .Info => 2
  | .Warn => 3
  | .Error => 4

/-- `Level::as_str`: the printed name of the level. -/
def as_str : Level → Str
  | .Trace => str "TRACE"
  | .Debug => str "DEBUG"
  | .Info => str "INFO"
  | .Warn => str "WARN"
  | .Error => str "ERROR"

/-- `Level::enabled(self, current)`: `(self as u8) >= (current as u8)`. -/
def enabled (self current : Level) : Bool :=
  self.toU8 ≥ current.toU8

end Level

/-- Rust `u8::to_ascii_lowercase` on one character: ASCII uppercase maps
to lowercase (`+ 32`), everything else is unchanged. -/
def asciiLowerChar (c : Char) : Char :=
  if 65 ≤ c.toNat ∧ c.toNat ≤ 90 then Char.ofNat (c.toNat + 32) else c

/-- Rust `str::to_ascii_lowercase`, character by character. -/
def asciiLower (s : Str) : Str := s.map asciiLowerChar

namespace Level

/-- `Level::from_str`: parse a level name, case-insensitively; the Rust
`match` on the lowercased text is rendered as a chain of equality tests
(branches in source order, `"warn" | "warning"` split into two tests). -/
def from_str (raw : Str) : Option Level :=
  let l := asciiLower raw
  if l = str "trace" then some .Trace
  else if l = str "debug" then some .Debug
  else if l = str "info" then some .Info
  else if l = str "warn" then some .Warn
  else if l = str "warning" then some .Warn
  else if l = str "error" then some .Error
  else none

end Level

/-- The severity rank from the spec: position in the fixed order
`trace < debug < info < warn < error`. -/
def rank : Level → Nat
  | .Trace => 0
  | .Debug => 1
  | .Info => 2
  | .Warn => 3
  | .Error => 4

/-! ### String splitting primitives (models of `str::split`,
`str::split_whitespace`, `str::split_once`) -/

/-- Rust `str::split(c)`: split on every occurrence of the character `c`,
keeping empty pieces (so `"".split(c) = [""]` and a trailing separator
yields a trailing empty piece). -/
def splitOnChar (c : Char) : Str → List Str
  | [] => [[]]
  | x :: xs =>
    match splitOnChar c xs with
    | [] => [[x]]
    | p :: ps => if x = c then [] :: p :: ps else (x :: p) :: ps

/-- Rust `char::is_whitespace`: the Unicode `White_Space` property —
TAB, LF, VT, FF, CR, SPACE, NEL, NBSP, OGHAM SPACE MARK, the
U+2000–U+200A spaces, LINE/PARAGRAPH SEPARATOR, NARROW NO-BREAK SPACE,
MEDIUM MATHEMATICAL SPACE and IDEOGRAPHIC SPACE. -/
def isWs (c : Char) : Bool :=
  c.toNat = 0x09 || c.toNat = 0x0a || c.toNat = 0x0b || c.toNat = 0x0c
    || c.toNat = 0x0d || c.toNat = 0x20 || c.toNat = 0x85 || c.toNat = 0xa0
    || c.toNat = 0x1680 || (0x2000 ≤ c.toNat && c.toNat ≤ 0x200a)
    || c.toNat = 0x2028 || c.toNat = 0x2029 || c.toNat = 0x202f
    || c.toNat = 0x205f || c.toNat = 0x3000

/-- Accumulator worker for `splitWhitespace`; `acc` holds the current
token reversed. -/
def splitWsAux : Str → Str → List Str
  | [], acc => if acc = [] then [] else [acc.reverse]
  | c :: cs, acc =>
    if isWs c then
      if acc = [] then splitWsAux cs [] else acc.reverse :: splitWsAux cs []
    else
      splitWsAux cs (c :: acc)

/-- Rust `str::split_whitespace`: maximal runs of non-whitespace
characters, in order; no empty tokens. -/
def splitWhitespace (s : Str) : List Str := splitWsAux s []

/-- Rust `Vec::join(sep)` (and Lean's `List.intercalate`): concatenate,
inserting `sep` between adjacent elements. -/
def joinSep (sep : Str) : List Str → Str
  | [] => []
  | [x] => x
  | x :: y :: t => x ++ sep ++ joinSep sep (y :: t)

/-- Rust `str::split_once(c)`: split at the first occurrence of `c`,
returning the parts before and after it; `none` if `c` does not occur. -/
def splitOnceChar (c : Char) : Str → Option (Str × Str)
  | [] => none
  | x :: xs =>
    if x = c then some ([], xs)
    else
      match splitOnceChar c xs with
      | some (l, r) => some (x :: l, r)
      | none => none

/-! ### Color scheme (`rsys_log/src/colorscheme.rs`) -/

/-- `struct ColorScheme`: the seven ANSI color slots. -/
structure ColorScheme where
  level : Str
  header : Str
  context : Str
  cid : Str
  msg : Str
  key : Str
  value : Str
deriving DecidableEq, Repr

/-- `type ColorResolver = fn(Level) -> ColorScheme`. -/
abbrev ColorResolver : Type := Level → ColorScheme

/-- `gruvbox_dark`: the default palette (same six shared slots for every
severity, one distinct `level` color per severity). -/
def gruvbox_dark (level : Level) : ColorScheme :=
  let shared : Str → ColorScheme := fun lvlColor =>
    { level := lvlColor
      header := str "38;5;246"
      context := str "38;5;222"
      cid := str "38;5;175"
      msg := str "38;5;223"
      key := str "38;5;208"
      value := str "38;5;223" }
  match level with
  | .Trace => shared (str "38;5;109")
  | .Debug => shared (str "38;5;108")
  | .Info => shared (str "38;5;142")
  | .Warn => shared (str "38;5;214")
  | .Error => shared (str "38;5;167")

/-! ### Recoloring (`apply_colors`) -/

/-- `format!("\x1b[{}m{}\x1b[0m", color, s)`: wrap `s` in one ANSI color
escape pair. -/
def wrapColor (color s : Str) : Str :=
  str "\x1b[" ++ color ++ str "m" ++ s ++ str "\x1b[0m"

/-- The per-token closure inside `apply_colors`: a token that contains a
`:` is split at the first `:` by `split_once` and both halves are
colored; a token without `:` passes through unchanged. -/
def colorToken (palette : ColorScheme) (token : Str) : Str :=
  match splitOnceChar ':' token with
  | some (k, v) => wrapColor palette.key k ++ str ":" ++ wrapColor palette.value v
  | none => token

/-- The per-segment branch of the `apply_colors` loop body (the `colored`
value computed for segment number `idx`). -/
def colorSegment (palette : ColorScheme) (idx : Nat) (part : Str) : Str :=
  if idx = 0 then wrapColor palette.header part
  else if (str "SSYS=").isPrefixOf part || (str "CTRL=").isPrefixOf part then
    wrapColor palette.context part
  else if (str "LVL=").isPrefixOf part then wrapColor palette.level part
  else if (str "CID=").isPrefixOf part then wrapColor palette.cid part
  else if (str "MSG=").isPrefixOf part then wrapColor palette.msg part
  else joinSep (str " ") ((splitWhitespace part).map (colorToken palette))

/-- `apply_colors(line, level)`: resolve the palette for `level`, split
the line on `|`, color each segment and rebuild the output string,
re-inserting `|` before every segment but the first (the Rust `for`
loop with `out.push('|')` / `out.push_str`, rendered as a fold over the
enumerated segments). The color-scheme cell read is modelled by the
explicit `resolver` argument. -/
def apply_colors (resolver : ColorResolver) (line : Str) (level : Level) : Str :=
  let palette := resolver level
  (splitOnChar '|' line).enum.foldl
    (fun out p =>
      (if p.1 > 0 then out ++ str "|" else out) ++ colorSegment palette p.1 p.2)
    []

/-! ### Timestamps (`chrono::DateTime<Utc>` and the `%Y.%m%d.%H:%M:%S`
format string) -/

/-- A UTC timestamp, by calendar fields. -/
structure Timestamp where
  year : Nat
  month : Nat
  day : Nat
  hour : Nat
  minute : Nat
  second : Nat
deriving DecidableEq, Repr

/-- Decimal digits of a natural number. -/
def natStr (n : Nat) : Str := (Nat.repr n).data

/-- Zero-pad to width 2 (chrono `%m`, `%d`, `%H`, `%M`, `%S`). -/
def pad2 (n : Nat) : Str :=
  let s := natStr n
  List.replicate (2 - s.length) '0' ++ s

/-- Zero-pad to width 4 (chrono `%Y` on common-era years). -/
def pad4 (n : Nat) : Str :=
  let s := natStr n
  List.replicate (4 - s.length) '0' ++ s

/-- `ts.format("%Y.%m%d.%H:%M:%S")`. -/
def formatTs (ts : Timestamp) : Str :=
  pad4 ts.year ++ str "." ++ pad2 ts.month ++ pad2 ts.day ++ str "."
    ++ pad2 ts.hour ++ str ":" ++ pad2 ts.minute ++ str ":" ++ pad2 ts.second

/-! ### `struct LogBuilder` and its methods -/

/-- `struct LogBuilder` (field order and defaults as in the source). -/
structure LogBuilder where
  timestamp : Option Timestamp
  subsystem : Str
  controller : Str
  level : Level
  cid : Str
  msg : Str
  data : List (Str × Str)
  details : List Str
  colorize : Bool
deriving DecidableEq, Repr

namespace LogBuilder

/-- `LogBuilder::new(subsystem, controller, level, msg)`. -/
def new (subsystem controller : Str) (level : Level) (msg : Str) : LogBuilder :=
  { timestamp := none
    subsystem := subsystem
    controller := controller
    level := level
    cid := str "-"
    msg := msg
    data := []
    details := []
    colorize := true }

/-- `LogBuilder::msg(msg)` (named `msgOnly` here because the structure
field is already called `msg`): delegates to `new("-", "-", Info, msg)`. -/
def msgOnly (msg : Str) : LogBuilder :=
  new (str "-") (str "-") .Info msg

/-- `LogBuilder::ssys`. -/
def ssys (b : LogBuilder) (subsystem : Str) : LogBuilder :=
  { b with subsystem := subsystem }

/-- `LogBuilder::ctrl`. -/
def ctrl (b : LogBuilder) (controller : Str) : LogBuilder :=
  { b with controller := controller }

/-- `LogBuilder::info`. -/
def info (b : LogBuilder) : LogBuilder := { b with level := .Info }

/-- `LogBuilder::warn`. -/
def warn (b : LogBuilder) : LogBuilder := { b with level := .Warn }

/-- `LogBuilder::error`. -/
def error (b : LogBuilder) : LogBuilder := { b with level := .Error }

/-- `LogBuilder::debug`. -/
def debug (b : LogBuilder) : LogBuilder := { b with level := .Debug }

/-- `LogBuilder::trace`. -/
def trace (b : LogBuilder) : LogBuilder := { b with level := .Trace }

/-- `LogBuilder::cid` (named `setCid` here: the field is called `cid`). -/
def setCid (b : LogBuilder) (cid : Str) : LogBuilder := { b with cid := cid }

/-- `LogBuilder::data` (named `addData`: the field is called `data`). -/
def addData (b : LogBuilder) (key value : Str) : LogBuilder :=
  { b with data := b.data ++ [(key, value)] }

/-- `LogBuilder::detail`. -/
def detail (b : LogBuilder) (line : Str) : LogBuilder :=
  { b with details := b.details ++ [line] }

/-- `LogBuilder::timestamp` (named `setTimestamp`: the field is called
`timestamp`). -/
def setTimestamp (b : LogBuilder) (ts : Timestamp) : LogBuilder :=
  { b with timestamp := some ts }

/-- `LogBuilder::colorize` (named `setColorize`: the field is called
`colorize`). -/
def setColorize (b : LogBuilder) (enabled : Bool) : LogBuilder :=
  { b with colorize := enabled }

/-- `LogBuilder::build_lines`: render the record to its output lines.
`Utc::now()` is the explicit `now` argument; the color-scheme cell read
inside `apply_colors` is the explicit `resolver` argument. -/
def build_lines (resolver : ColorResolver) (now : Timestamp) (b : LogBuilder) :
    List Str :=
  let ts := formatTs (b.timestamp.getD now)
  let base := ts ++ str "|SSYS=" ++ b.subsystem ++ str "|CTRL=" ++ b.controller
    ++ str "|LVL=" ++ b.level.as_str ++ str "|CID=" ++ b.cid
    ++ str "|MSG=" ++ b.msg
  let base :=
    if b.data.isEmpty then base
    else
      base ++ str "|"
        ++ joinSep (str " ") (b.data.map fun kv => kv.1 ++ str ":" ++ kv.2)
  let base := if b.colorize then apply_colors resolver base b.level else base
  if b.details.isEmpty then [base]
  else base :: b.details.map (fun d => str "  > " ++ d)

/-- `LogBuilder::build`: join the lines with `\n`. -/
def build (resolver : ColorResolver) (now : Timestamp) (b : LogBuilder) : Str :=
  joinSep (str "\n") (build_lines resolver now b)

end LogBuilder

/-! ### Global state (`GLOBAL_LEVEL`, `LOG_CHANNELS`) and the stateful
operations -/

/-- One `mpsc` channel in the subscriber registry: `closed` is true once
the consuming `Receiver` has been dropped (so `send` fails); `queue` is
the list of strings delivered so far, oldest first. -/
structure Subscriber where
  id : Nat
  closed : Bool
  queue : List Str
deriving DecidableEq, Repr

/-- The process-wide mutable cells: the `AtomicU8` holding the global
level (as its raw `u8` contents) and the `Vec<Sender<String>>` of
subscribers. (The color-scheme cell is passed separately as a
`ColorResolver` argument where it is read.) -/
structure LogState where
  levelCell : Nat
  subscribers : List Subscriber
deriving DecidableEq, Repr

/-- The state at process start: the level cell is lazily initialized to
`AtomicU8::new(Level::Info as u8)` and the registry to `Vec::new()`. -/
def initialState : LogState :=
  { levelCell := Level.Info.toU8, subscribers := [] }

/-- `set_global_level(level)`: store `level as u8` in the cell. -/
def set_global_level (level : Level) (st : LogState) : LogState :=
  { st with levelCell := level.toU8 }

/-- `global_level()`: decode the cell contents (`0..=3` to the matching
level, anything else to `Error`, as in the source `match`). -/
def global_level (st : LogState) : Level :=
  match st.levelCell with
  | 0 => .Trace
  | 1 => .Debug
  | 2 => .Info
  | 3 => .Warn
  | _ => .Error

/-- `subscribe_logs()`: create a fresh channel, push its sender onto the
registry, return the receiver. The fresh receiver is identified by `id`;
it starts open with an empty queue. -/
def subscribe_logs (id : Nat) (st : LogState) : LogState :=
  { st with subscribers := st.subscribers ++ [{ id := id, closed := false, queue := [] }] }

/-- Dropping a subscriber's consuming handle (`Receiver`): the matching
sender's `send` calls fail from now on. The registry entry itself is
untouched (pruning is lazy). -/
def drop_subscriber (id : Nat) (st : LogState) : LogState :=
  { st with
    subscribers := st.subscribers.map fun s =>
      if s.id = id then { s with closed := true } else s }

/-- `broadcast_log_line(line)`: `senders.retain(|s| s.send(line).is_ok())` —
each open channel receives the line and is kept; each closed channel's
send fails and the sender is removed, in one pass, in registry order. -/
def broadcast_log_line (line : Str) (st : LogState) : LogState :=
  { st with
    subscribers := st.subscribers.filterMap fun s =>
      if s.closed then none else some { s with queue := s.queue ++ [line] } }

/-- `log_line(builder)`: if the builder's level is enabled against the
global level, build the string, broadcast it and return it; otherwise
return `None` and touch nothing. -/
def log_line (resolver : ColorResolver) (now : Timestamp) (b : LogBuilder)
    (st : LogState) : Option Str × LogState :=
  if b.level.enabled (global_level st) then
    let line := LogBuilder.build resolver now b
    (some line, broadcast_log_line line st)
  else
    (none, st)

/-- `LogBuilder::print`: delegate to `log_line`; when it yields a line,
print each `\n`-separated piece to stdout and return `Some(())`.
The middle component is the list of lines written to stdout. -/
def printLog (resolver : ColorResolver) (now : Timestamp) (b : LogBuilder)
    (st : LogState) : Option Unit × List Str × LogState :=
  match log_line resolver now b st with
  | (some line, st') => (some (), splitOnChar '\n' line, st')
  | (none, st') => (none, [], st')

/-- A sequence of `log_line` emits, oldest first (used to state the
FIFO-delivery property). -/
def run_emits (resolver : ColorResolver) (now : Timestamp)
    (bs : List LogBuilder) (st : LogState) : LogState :=
  bs.foldl (fun s b => (log_line resolver now b s).2) st

/-! ### Spec-side reference definitions (for the refinement claims) -/

/-- The reference rendering from the spec (§4.3/§6, for claim C2): head
`<ts>|SSYS=<s>|CTRL=<c>|LVL=<L>|CID=<id>|MSG=<m>`, then `|k1:v1 k2:v2 ...`
only when key/value pairs exist, then one `  > <detail>` line per detail
in insertion order. -/
def refRenderLines (ts : Timestamp) (b : LogBuilder) : List Str :=
  let head := formatTs ts ++ str "|SSYS=" ++ b.subsystem ++ str "|CTRL="
    ++ b.controller ++ str "|LVL=" ++ b.level.as_str ++ str "|CID=" ++ b.cid
    ++ str "|MSG=" ++ b.msg
  let head :=
    match b.data with
    | [] => head
    | _ :: _ =>
      head ++ str "|"
        ++ joinSep (str " ") (b.data.map fun kv => kv.1 ++ str ":" ++ kv.2)
  head :: b.details.map (fun d => str "  > " ++ d)

/-- The worked example of the spec: the builder for claim C2's quoted
output line. -/
def exampleBuilder : LogBuilder :=
  ((((LogBuilder.new (str "db") (str "migrator") .Info
      (str "Migration applied")).setTimestamp
        ⟨2025, 12, 5, 10, 15, 30⟩).setCid (str "op12")).addData
        (str "name") (str "2025-12-01-001-rbac")
    |>.addData (str "dur_ms") (str "214")
    |>.setColorize false)

/-- Does a segment carry one of the five recognized field prefixes? -/
def prefixedSeg (part : Str) : Bool :=
  (str "SSYS=").isPrefixOf part || (str "CTRL=").isPrefixOf part
    || (str "LVL=").isPrefixOf part || (str "CID=").isPrefixOf part
    || (str "MSG=").isPrefixOf part

/-- The token rule exactly as claim C7 words it: only a token containing
exactly one `:` is split (at that `:`) and colored; a token with no `:`
or with more than one `:` passes through unchanged. -/
def colorTokenClaim (palette : ColorScheme) (token : Str) : Str :=
  if token.count ':' = 1 then
    wrapColor palette.key (token.takeWhile (fun c => c ≠ ':'))
      ++ str ":" ++ wrapColor palette.value ((token.dropWhile (fun c => c ≠ ':')).tail)
  else token

/-- Claim C7's per-segment coloring rule (identical prefix
classification, token rule per `colorTokenClaim`). -/
def colorSegmentClaim (palette : ColorScheme) (idx : Nat) (part : Str) : Str :=
  if idx = 0 then wrapColor palette.header part
  else if (str "SSYS=").isPrefixOf part || (str "CTRL=").isPrefixOf part then
    wrapColor palette.context part
  else if (str "LVL=").isPrefixOf part then wrapColor palette.level part
  else if (str "CID=").isPrefixOf part then wrapColor palette.cid part
  else if (str "MSG=").isPrefixOf part then wrapColor palette.msg part
  else joinSep (str " ") ((splitWhitespace part).map (colorTokenClaim palette))

/-- Claim C7's whole-line recoloring rule: color each `|`-segment by
position/prefix and rejoin with `|`. -/
def colorLineClaim (resolver : ColorResolver) (line : Str) (level : Level) : Str :=
  joinSep (str "|")
    ((splitOnChar '|' line).enum.map
      (fun q => colorSegmentClaim (resolver level) q.1 q.2))

/-- Amended token rule (what the code's `split_once` actually does):
every token containing at least one `:` is split at the first `:` and
colored; only tokens without `:` pass through. -/
def colorTokenRef (palette : ColorScheme) (token : Str) : Str :=
  if ':' ∈ token then
    wrapColor palette.key (token.takeWhile (fun c => c ≠ ':'))
      ++ str ":" ++ wrapColor palette.value ((token.dropWhile (fun c => c ≠ ':')).tail)
  else token

/-- Amended per-segment rule (prefix classification as in claim C7,
token rule per `colorTokenRef`). -/
def colorSegmentRef (palette : ColorScheme) (idx : Nat) (part : Str) : Str :=
  if idx = 0 then wrapColor palette.header part
  else if (str "SSYS=").isPrefixOf part || (str "CTRL=").isPrefixOf part then
    wrapColor palette.context part
  else if (str "LVL=").isPrefixOf part then wrapColor palette.level part
  else if (str "CID=").isPrefixOf part then wrapColor palette.cid part
  else if (str "MSG=").isPrefixOf part then wrapColor palette.msg part
  else joinSep (str " ") ((splitWhitespace part).map (colorTokenRef palette))

/-- Amended whole-line recoloring rule, stated compositionally: segments
are colored independently and rejoined with uncolored `|`s. -/
def colorLineRef (resolver : ColorResolver) (line : Str) (level : Level) : Str :=
  joinSep (str "|")
    ((splitOnChar '|' line).enum.map
      (fun q => colorSegmentRef (resolver level) q.1 q.2))

/-! ### ANSI escape stripping (spec side of claim C8) -/

/-- Remove every ANSI color escape sequence (`ESC [ ... m`): outside an
escape, `ESC` enters escape mode and is dropped; inside, everything
through the terminating `m` is dropped. The flag says whether we are
inside an escape sequence. -/
def stripAnsiAux : Bool → Str → Str
  | _, [] => []
  | true, c :: rest =>
    if c = 'm' then stripAnsiAux false rest else stripAnsiAux true rest
  | false, c :: rest =>
    if c = '\x1b' then stripAnsiAux true rest else c :: stripAnsiAux false rest

/-- Remove every ANSI color escape sequence from a string. -/
def stripAnsi (s : Str) : Str := stripAnsiAux false s

/-- A string containing no escape character. -/
abbrev noEsc (s : Str) : Prop := '\x1b' ∉ s

/-- A color code that terminates properly when wrapped (no stray `m`). -/
abbrev goodColor (s : Str) : Prop := 'm' ∉ s

/-- All seven palette slots are well-formed color codes. -/
abbrev goodPalette (p : ColorScheme) : Prop :=
  goodColor p.level ∧ goodColor p.header ∧ goodColor p.context
    ∧ goodColor p.cid ∧ goodColor p.msg ∧ goodColor p.key ∧ goodColor p.value

/-- A key/value tail segment whose tokens are separated by single spaces
with no leading or trailing whitespace — the shape `build_lines` itself
produces when keys and values contain no whitespace. Splitting such a
segment into tokens and rejoining with single spaces is the identity. -/
abbrev tailNormalized (part : Str) : Prop :=
  joinSep (str " ") (splitWhitespace part) = part

/-- Builder for the claim C8 counterexample: one data value containing a
double space. -/
def cexBuilder : LogBuilder :=
  (((LogBuilder.new (str "db") (str "m") .Info (str "x")).setTimestamp
      ⟨2025, 12, 5, 10, 15, 30⟩).addData (str "k") (str "a  b")).setColorize false

/-! ## Helper lemmas -/

/-- On a valid codepoint, `Char.ofNat` and `Char.toNat` cancel. -/
theorem toNat_ofNat_valid {n : Nat} (h : n.isValidChar) :
    (Char.ofNat n).toNat = n := by
  rw [Char.ofNat, dif_pos h]
  rfl

/-- ASCII lowercasing is idempotent on characters. -/
theorem asciiLowerChar_idem (c : Char) :
    asciiLowerChar (asciiLowerChar c) = asciiLowerChar c := by
  unfold asciiLowerChar
  by_cases h : 65 ≤ c.toNat ∧ c.toNat ≤ 90
  · rw [if_pos h]
    have hv : (c.toNat + 32).isValidChar := Or.inl (by omega)
    have ht : (Char.ofNat (c.toNat + 32)).toNat = c.toNat + 32 := toNat_ofNat_valid hv
    rw [if_neg (by omega)]
  · rw [if_neg h, if_neg h]

/-- ASCII lowercasing is idempotent on strings. -/
theorem asciiLower_idem (s : Str) : asciiLower (asciiLower s) = asciiLower s := by
  unfold asciiLower
  rw [List.map_map]
  exact List.map_congr_left fun c _ => asciiLowerChar_idem c

/-- The one-pass `retain` of `broadcast_log_line` is the same as first
dropping the closed channels, then delivering to each survivor. -/
theorem filterMap_broadcast_eq (line : Str) (l : List Subscriber) :
    (l.filterMap fun s =>
        if s.closed then none else some { s with queue := s.queue ++ [line] })
      = (l.filter fun s => !s.closed).map
          (fun s => { s with queue := s.queue ++ [line] }) := by
  induction l with
  | nil => rfl
  | cons a t ih =>
    cases hc : a.closed <;>
      simp [List.filterMap_cons, List.filter_cons, hc, ih]

/-- `log_line` never writes the global-level cell. -/
theorem log_line_levelCell (resolver : ColorResolver) (now : Timestamp)
    (b : LogBuilder) (st : LogState) :
    ((log_line resolver now b st).2).levelCell = st.levelCell := by
  unfold log_line
  split <;> rfl

/-- A run of emits never writes the global-level cell. -/
theorem run_emits_levelCell (resolver : ColorResolver) (now : Timestamp)
    (bs : List LogBuilder) (st : LogState) :
    (run_emits resolver now bs st).levelCell = st.levelCell := by
  induction bs generalizing st with
  | nil => rfl
  | cons b t ih =>
    show (run_emits resolver now t (log_line resolver now b st).2).levelCell = _
    rw [ih, log_line_levelCell]

/-- An open subscriber present before a run of emits ends up with exactly
the renderings of the enabled emits appended to its queue, in emit
order. -/
theorem mem_run_emits (resolver : ColorResolver) (now : Timestamp)
    (bs : List LogBuilder) :
    ∀ (st : LogState) (sub : Subscriber), sub ∈ st.subscribers →
      sub.closed = false →
      ({ sub with
          queue := sub.queue
            ++ (bs.filter (fun b => b.level.enabled (global_level st))).map
              (LogBuilder.build resolver now) } : Subscriber)
        ∈ (run_emits resolver now bs st).subscribers := by
  induction bs with
  | nil =>
    intro st sub hmem _
    simpa using hmem
  | cons b t ih =>
    intro st sub hmem hopen
    show _ ∈ (run_emits resolver now t (log_line resolver now b st).2).subscribers
    by_cases he : b.level.enabled (global_level st)
    · have hstep : (log_line resolver now b st).2
          = broadcast_log_line (LogBuilder.build resolver now b) st := by
        simp [log_line, he]
      have hmem' :
          ({ sub with queue := sub.queue ++ [LogBuilder.build resolver now b] } : Subscriber)
            ∈ (broadcast_log_line (LogBuilder.build resolver now b) st).subscribers := by
        simp only [broadcast_log_line, List.mem_filterMap]
        exact ⟨sub, hmem, by rw [hopen]; rfl⟩
      have hgl : global_level (broadcast_log_line (LogBuilder.build resolver now b) st)
          = global_level st := rfl
      have := ih (broadcast_log_line (LogBuilder.build resolver now b) st)
        { sub with queue := sub.queue ++ [LogBuilder.build resolver now b] }
        hmem' hopen
      rw [hstep]
      simpa [hgl, he, List.filter_cons, List.append_assoc] using this
    · have hstep : (log_line resolver now b st).2 = st := by
        simp [log_line, he]
      have := ih st sub hmem hopen
      rw [hstep]
      simpa [he, List.filter_cons] using this

/-! ### Split/join lemmas -/

/-- `joinSep` on two or more pieces: separator between head and rest. -/
theorem joinSep_cons_cons (sep x y : Str) (t : List Str) :
    joinSep sep (x :: y :: t) = x ++ sep ++ joinSep sep (y :: t) := rfl

/-- `joinSep` of a nonempty list, as head plus separator-prefixed rest. -/
theorem joinSep_cons_eq_join (sep : Str) (a : Str) (l : List Str) :
    joinSep sep (a :: l) = a ++ (l.map (fun y => sep ++ y)).flatten := by
  induction l generalizing a with
  | nil => simp [joinSep]
  | cons b t ih =>
    rw [joinSep_cons_cons, ih b]
    simp [List.append_assoc]

/-- Splitting never yields an empty piece list. -/
theorem splitOnChar_ne_nil (c : Char) (l : Str) : splitOnChar c l ≠ [] := by
  cases l with
  | nil => simp [splitOnChar]
  | cons x xs =>
    cases h : splitOnChar c xs with
    | nil => simp [splitOnChar, h]
    | cons p ps =>
      by_cases hx : x = c <;> simp [splitOnChar, h, hx]

/-- Rejoining the pieces of a split with the same separator recovers the
original string. -/
theorem joinSep_splitOnChar (c : Char) (l : Str) :
    joinSep [c] (splitOnChar c l) = l := by
  induction l with
  | nil => rfl
  | cons x xs ih =>
    cases h : splitOnChar c xs with
    | nil => exact absurd h (splitOnChar_ne_nil c xs)
    | cons p ps =>
      rw [h] at ih
      by_cases hx : x = c
      · subst hx
        simp only [splitOnChar, h, if_pos trivial, eq_self_iff_true, if_true]
        rw [joinSep_cons_cons]
        simpa using ih
      · simp only [splitOnChar, h, if_neg hx]
        cases ps with
        | nil =>
          simp only [joinSep] at ih ⊢
          rw [ih]
        | cons q t =>
          rw [joinSep_cons_cons]
          rw [joinSep_cons_cons] at ih
          have hshift : (x :: p) ++ [c] ++ joinSep [c] (q :: t)
              = x :: (p ++ [c] ++ joinSep [c] (q :: t)) := by simp
          rw [hshift, ih]

/-- Every character of every piece occurs in the joined string. -/
theorem mem_joinSep (sep : Str) (l : List Str) :
    ∀ t ∈ l, ∀ x ∈ t, x ∈ joinSep sep l := by
  induction l with
  | nil => intro t ht; cases ht
  | cons a l' ih =>
    intro t ht x hx
    cases l' with
    | nil =>
      rw [List.mem_singleton] at ht
      subst ht
      simpa [joinSep] using hx
    | cons b t' =>
      rw [joinSep_cons_cons]
      rcases List.mem_cons.mp ht with rfl | hmem
      · exact List.mem_append_left _ (List.mem_append_left _ hx)
      · exact List.mem_append_right _ (ih t hmem x hx)

/-- A successful `split_once` decomposes the string around the first
separator occurrence. -/
theorem splitOnceChar_eq_append {c : Char} :
    ∀ {s k v : Str}, splitOnceChar c s = some (k, v) → s = k ++ c :: v := by
  intro s
  induction s with
  | nil => intro k v h; simp [splitOnceChar] at h
  | cons x xs ih =>
    intro k v h
    simp only [splitOnceChar] at h
    by_cases hx : x = c
    · rw [if_pos hx] at h
      simp only [Option.some.injEq, Prod.mk.injEq] at h
      obtain ⟨rfl, rfl⟩ := h
      simp [hx]
    · rw [if_neg hx] at h
      cases hsp : splitOnceChar c xs with
      | none => rw [hsp] at h; cases h
      | some pr =>
        obtain ⟨l', r'⟩ := pr
        rw [hsp] at h
        simp only [Option.some.injEq, Prod.mk.injEq] at h
        obtain ⟨rfl, rfl⟩ := h
        simpa using ih hsp

/-- `split_once` fails exactly when the separator does not occur. -/
theorem splitOnceChar_eq_none {c : Char} :
    ∀ {s : Str}, splitOnceChar c s = none ↔ c ∉ s := by
  intro s
  induction s with
  | nil => simp [splitOnceChar]
  | cons x xs ih =>
    simp only [splitOnceChar, List.mem_cons]
    by_cases hx : x = c
    · subst hx
      simp
    · rw [if_neg hx]
      cases hsp : splitOnceChar c xs with
      | none =>
        have hnotin : c ∉ xs := ih.mp hsp
        have hne : ¬c = x := fun h => hx h.symm
        simp [hne, hnotin]
      | some pr =>
        obtain ⟨l', r'⟩ := pr
        have hin : c ∈ xs := by
          by_contra hno
          rw [ih.mpr hno] at hsp
          cases hsp
        simp [hin]

/-- When the separator occurs, `split_once` returns the prefix before
its first occurrence and the suffix after it. -/
theorem splitOnceChar_of_mem {c : Char} :
    ∀ {s : Str}, c ∈ s →
      splitOnceChar c s
        = some (s.takeWhile (fun x => x ≠ c), (s.dropWhile (fun x => x ≠ c)).tail) := by
  intro s
  induction s with
  | nil => intro h; cases h
  | cons x xs ih =>
    intro h
    simp only [splitOnceChar]
    by_cases hx : x = c
    · subst hx
      simp
    · have hxs : c ∈ xs := by
        rcases List.mem_cons.mp h with h1 | h2
        · exact absurd h1.symm hx
        · exact h2
      rw [if_neg hx, ih hxs]
      have hpred : (fun y => decide (y ≠ c)) x = true := by
        simp [hx]
      simp [List.takeWhile_cons, List.dropWhile_cons, hx]

/-- The code's per-token coloring agrees with the amended reference
token rule (split at the first `:` whenever a `:` occurs). -/
theorem colorToken_eq_ref (p : ColorScheme) (t : Str) :
    colorToken p t = colorTokenRef p t := by
  unfold colorToken colorTokenRef
  by_cases h : ':' ∈ t
  · rw [splitOnceChar_of_mem h, if_pos h]
  · rw [splitOnceChar_eq_none.mpr h, if_neg h]

/-- The code's per-segment coloring agrees with the amended reference
segment rule. -/
theorem colorSegment_eq_ref (p : ColorScheme) (i : Nat) (part : Str) :
    colorSegment p i part = colorSegmentRef p i part := by
  have h : colorToken p = colorTokenRef p := funext fun t => colorToken_eq_ref p t
  unfold colorSegment colorSegmentRef
  rw [h]

/-- Folding the separator-inserting loop body over positions `≥ 1`
appends one separator-prefixed colored piece per element. -/
theorem foldl_enumFrom_sep (g : Nat × Str → Str) (sep : Str) :
    ∀ (xs : List Str) (n : Nat), 0 < n → ∀ (acc : Str),
      (xs.enumFrom n).foldl
        (fun out q => (if q.1 > 0 then out ++ sep else out) ++ g q) acc
      = acc ++ ((xs.enumFrom n).map (fun q => sep ++ g q)).flatten := by
  intro xs
  induction xs with
  | nil => intro n hn acc; simp
  | cons x xs ih =>
    intro n hn acc
    simp only [List.enumFrom_cons, List.foldl_cons, List.map_cons, List.flatten_cons]
    rw [if_pos hn]
    rw [ih (n + 1) (by omega) (acc ++ sep ++ g (n, x))]
    simp [List.append_assoc]

/-- The `apply_colors` output loop equals joining the per-segment colored
pieces with the separator. -/
theorem foldl_sep_eq_joinSep (g : Nat × Str → Str) (sep : Str) (l : List Str) :
    l.enum.foldl (fun out q => (if q.1 > 0 then out ++ sep else out) ++ g q) []
      = joinSep sep (l.enum.map g) := by
  cases l with
  | nil => rfl
  | cons x xs =>
    rw [List.enum_cons]
    simp only [List.foldl_cons, List.map_cons]
    rw [foldl_enumFrom_sep g sep xs 1 (by omega)]
    rw [joinSep_cons_eq_join]
    simp [List.map_map, Function.comp_def]

/-- `apply_colors` coincides with the compositional amended reference
recoloring on every input line, every level and every resolver. -/
theorem apply_colors_eq_ref (resolver : ColorResolver) (line : Str) (level : Level) :
    apply_colors resolver line level = colorLineRef resolver line level := by
  simp only [apply_colors, colorLineRef]
  refine Eq.trans (foldl_sep_eq_joinSep _ _ _) ?_
  congr 1
  exact List.map_congr_left fun q _ => colorSegment_eq_ref _ _ _

/-! ### Stripping lemmas -/

/-- One strip step: an escape character enters escape mode. -/
theorem stripAux_false_esc (R : Str) :
    stripAnsiAux false ('\x1b' :: R) = stripAnsiAux true R := rfl

/-- One strip step: an ordinary character is kept. -/
theorem stripAux_false_cons {c : Char} (h : ¬c = '\x1b') (R : Str) :
    stripAnsiAux false (c :: R) = c :: stripAnsiAux false R := by
  simp only [stripAnsiAux, if_neg h]

/-- Stripping passes escape-free text through unchanged. -/
theorem stripAnsiAux_false_append :
    ∀ {s : Str}, noEsc s → ∀ t, stripAnsiAux false (s ++ t) = s ++ stripAnsiAux false t := by
  intro s
  induction s with
  | nil => intro _ t; rfl
  | cons c s' ih =>
    intro hs t
    have hc : ¬c = '\x1b' := fun h => hs (h ▸ List.mem_cons_self c s')
    have hs' : noEsc s' := fun h => hs (List.mem_cons_of_mem c h)
    rw [List.cons_append, stripAux_false_cons hc, ih hs' t, List.cons_append]

/-- Inside an escape sequence, everything through the terminating `m` is
dropped. -/
theorem stripAnsiAux_true_append :
    ∀ {u : Str}, 'm' ∉ u → ∀ t, stripAnsiAux true (u ++ 'm' :: t) = stripAnsiAux false t := by
  intro u
  induction u with
  | nil => intro _ t; simp [stripAnsiAux]
  | cons c u' ih =>
    intro hu t
    have hc : ¬c = 'm' := fun h => hu (h ▸ List.mem_cons_self c u')
    have hu' : 'm' ∉ u' := fun h => hu (List.mem_cons_of_mem c h)
    rw [List.cons_append]
    show stripAnsiAux true (c :: (u' ++ 'm' :: t)) = _
    simp only [stripAnsiAux, if_neg hc]
    exact ih hu' t

/-- Stripping removes a whole color wrap, keeping the wrapped text. -/
theorem strip_wrapColor {code s : Str} (hm : 'm' ∉ code) (hs : noEsc s) (t : Str) :
    stripAnsiAux false (wrapColor code s ++ t) = s ++ stripAnsiAux false t := by
  have hshape : wrapColor code s ++ t
      = '\x1b' :: (('[' :: code) ++ 'm' :: (s ++ '\x1b' :: (['[', '0'] ++ 'm' :: t))) := by
    show (['\x1b', '['] ++ code ++ ['m'] ++ s ++ ['\x1b', '[', '0', 'm']) ++ t = _
    simp
  have hmc : 'm' ∉ '[' :: code := by
    intro hmem
    rcases List.mem_cons.mp hmem with h1 | h2
    · cases h1
    · exact hm h2
  rw [hshape, stripAux_false_esc, stripAnsiAux_true_append hmc,
    stripAnsiAux_false_append hs, stripAux_false_esc,
    stripAnsiAux_true_append (by decide : 'm' ∉ ['[', '0'])]

/-- Stripping a colored token recovers the token. -/
theorem strip_colorTokenRef {p : ColorScheme} (hk : goodColor p.key)
    (hv : goodColor p.value) {tok : Str} (hne : noEsc tok) (t : Str) :
    stripAnsiAux false (colorTokenRef p tok ++ t) = tok ++ stripAnsiAux false t := by
  unfold colorTokenRef
  by_cases h : ':' ∈ tok
  · rw [if_pos h]
    have hdecomp : tok.takeWhile (fun c => c ≠ ':')
        ++ ':' :: (tok.dropWhile (fun c => c ≠ ':')).tail = tok :=
      (splitOnceChar_eq_append (splitOnceChar_of_mem h)).symm
    have hnk : noEsc (tok.takeWhile (fun c => c ≠ ':')) := by
      intro hmem
      exact hne (hdecomp ▸ List.mem_append_left _ hmem)
    have hnv : noEsc (tok.dropWhile (fun c => c ≠ ':')).tail := by
      intro hmem
      exact hne (hdecomp ▸ List.mem_append_right _ (List.mem_cons_of_mem _ hmem))
    have hshape :
        (wrapColor p.key (tok.takeWhile (fun c => c ≠ ':')) ++ str ":"
            ++ wrapColor p.value (tok.dropWhile (fun c => c ≠ ':')).tail) ++ t
          = wrapColor p.key (tok.takeWhile (fun c => c ≠ ':'))
              ++ ':' :: (wrapColor p.value (tok.dropWhile (fun c => c ≠ ':')).tail ++ t) := by
      rw [show str ":" = [':'] from rfl]
      simp
    rw [hshape, strip_wrapColor hk hnk,
      stripAux_false_cons (by decide : ¬(':' : Char) = '\x1b'),
      strip_wrapColor hv hnv]
    conv_rhs => rw [← hdecomp]
    simp [List.append_assoc]
  · rw [if_neg h]
    exact stripAnsiAux_false_append hne t

/-- Stripping a space-joined list of colored tokens recovers the
space-joined tokens. -/
theorem strip_joinSep_tokens {p : ColorScheme} (hk : goodColor p.key)
    (hv : goodColor p.value) :
    ∀ (toks : List Str), (∀ tok ∈ toks, noEsc tok) → ∀ t,
      stripAnsiAux false (joinSep (str " ") (toks.map (colorTokenRef p)) ++ t)
        = joinSep (str " ") toks ++ stripAnsiAux false t := by
  intro toks
  induction toks with
  | nil => intro _ t; simp [joinSep]
  | cons a l ih =>
    intro hall t
    cases l with
    | nil =>
      show stripAnsiAux false (colorTokenRef p a ++ t) = a ++ stripAnsiAux false t
      exact strip_colorTokenRef hk hv (hall a (List.mem_cons_self a [])) t
    | cons b l' =>
      rw [List.map_cons, List.map_cons, joinSep_cons_cons, joinSep_cons_cons]
      have hshape :
          (colorTokenRef p a ++ str " "
              ++ joinSep (str " ") (colorTokenRef p b :: l'.map (colorTokenRef p))) ++ t
            = colorTokenRef p a
                ++ ' ' :: (joinSep (str " ") (colorTokenRef p b :: l'.map (colorTokenRef p)) ++ t) := by
        rw [show str " " = [' '] from rfl]
        simp
      rw [hshape, strip_colorTokenRef hk hv (hall a (List.mem_cons_self a _)),
        stripAux_false_cons (by decide : ¬(' ' : Char) = '\x1b')]
      have hall' : ∀ tok ∈ b :: l', noEsc tok := fun tok htok =>
        hall tok (List.mem_cons_of_mem a htok)
      have hrest := ih hall' t
      rw [List.map_cons] at hrest
      rw [hrest, show str " " = [' '] from rfl]
      simp

/-- Stripping a colored segment recovers the segment, provided it is the
head segment, a prefixed field segment, or a whitespace-normalized
key/value tail segment. -/
theorem strip_colorSegmentRef {p : ColorScheme} (hp : goodPalette p)
    (idx : Nat) {part : Str} (hne : noEsc part)
    (hcond : idx = 0 ∨ prefixedSeg part = true ∨ tailNormalized part) (t : Str) :
    stripAnsiAux false (colorSegmentRef p idx part ++ t)
      = part ++ stripAnsiAux false t := by
  obtain ⟨hl, hh, hc, hcid, hmsg, hkey, hval⟩ := hp
  unfold colorSegmentRef
  by_cases h0 : idx = 0
  · rw [if_pos h0]
    exact strip_wrapColor hh hne t
  · rw [if_neg h0]
    by_cases h1 : ((str "SSYS=").isPrefixOf part || (str "CTRL=").isPrefixOf part) = true
    · rw [if_pos h1]
      exact strip_wrapColor hc hne t
    · rw [if_neg h1]
      by_cases h2 : (str "LVL=").isPrefixOf part = true
      · rw [if_pos h2]
        exact strip_wrapColor hl hne t
      · rw [if_neg h2]
        by_cases h3 : (str "CID=").isPrefixOf part = true
        · rw [if_pos h3]
          exact strip_wrapColor hcid hne t
        · rw [if_neg h3]
          by_cases h4 : (str "MSG=").isPrefixOf part = true
          · rw [if_pos h4]
            exact strip_wrapColor hmsg hne t
          · rw [if_neg h4]
            have hnorm : tailNormalized part := by
              rcases hcond with h | h | h
              · exact absurd h h0
              · exfalso
                simp only [prefixedSeg, Bool.or_eq_true] at h
                rcases h with (((ha | hb) | hc') | hd) | he
                · exact h1 (by simp [ha])
                · exact h1 (by simp [hb])
                · exact h2 hc'
                · exact h3 hd
                · exact h4 he
              · exact h
            have htoks : ∀ tok ∈ splitWhitespace part, noEsc tok := by
              intro tok htok hmem
              apply hne
              rw [← hnorm]
              exact mem_joinSep (str " ") _ tok htok _ hmem
            rw [strip_joinSep_tokens hkey hval (splitWhitespace part) htoks t, hnorm]

/-- Stripping the pipe-joined colored segments recovers the pipe-joined
segments. -/
theorem strip_joinSep_segments {p : ColorScheme} (hp : goodPalette p) :
    ∀ (l : List (Nat × Str)),
      (∀ q ∈ l, noEsc q.2 ∧ (q.1 = 0 ∨ prefixedSeg q.2 = true ∨ tailNormalized q.2)) →
      ∀ t,
        stripAnsiAux false
            (joinSep (str "|") (l.map (fun q => colorSegmentRef p q.1 q.2)) ++ t)
          = joinSep (str "|") (l.map Prod.snd) ++ stripAnsiAux false t := by
  intro l
  induction l with
  | nil => intro _ t; simp [joinSep]
  | cons a l' ih =>
    intro hall t
    obtain ⟨hne, hcond⟩ := hall a (List.mem_cons_self a l')
    cases l' with
    | nil =>
      show stripAnsiAux false (colorSegmentRef p a.1 a.2 ++ t) = a.2 ++ stripAnsiAux false t
      exact strip_colorSegmentRef hp a.1 hne hcond t
    | cons b l'' =>
      rw [List.map_cons, List.map_cons, joinSep_cons_cons,
        List.map_cons, List.map_cons, joinSep_cons_cons]
      have hshape :
          (colorSegmentRef p a.1 a.2 ++ str "|"
              ++ joinSep (str "|")
                (colorSegmentRef p b.1 b.2 :: l''.map (fun q => colorSegmentRef p q.1 q.2))) ++ t
            = colorSegmentRef p a.1 a.2
                ++ '|' :: (joinSep (str "|")
                  (colorSegmentRef p b.1 b.2 :: l''.map (fun q => colorSegmentRef p q.1 q.2)) ++ t) := by
        rw [show str "|" = ['|'] from rfl]
        simp
      rw [hshape, strip_colorSegmentRef hp a.1 hne hcond,
        stripAux_false_cons (by decide : ¬('|' : Char) = '\x1b')]
      have hall' : ∀ q ∈ b :: l'',
          noEsc q.2 ∧ (q.1 = 0 ∨ prefixedSeg q.2 = true ∨ tailNormalized q.2) :=
        fun q hq => hall q (List.mem_cons_of_mem a hq)
      have hrest := ih hall' t
      rw [List.map_cons, List.map_cons] at hrest
      rw [hrest, show str "|" = ['|'] from rfl]
      simp

end RsysLog

/-! ## Claim theorems -/

namespace RsysLog

/-- Claim C3: `Level::enabled A B` returns true exactly when the rank of
`A` is at least the rank of `B`, under the fixed severity order
`trace < debug < info < warn < error`. -/
theorem C3_enabled_iff_rank_ge (A B : Level) :
    Level.enabled A B = true ↔ rank A ≥ rank B := by
  cases A <;> cases B <;> decide

/-- Claim C9: before any `set_global_level` call the global level reads
as `Info` (the default), and after `set_global_level L` with no
intervening writes, `global_level` returns exactly `L`, for every level. -/
theorem C9_global_level_default_and_roundtrip :
    global_level initialState = Level.Info
      ∧ ∀ (L : Level) (st : LogState), global_level (set_global_level L st) = L := by
  refine ⟨rfl, fun L st => ?_⟩
  cases L <;> rfl

/-- Claim C10: the message-only constructor `LogBuilder::msg m` equals
`LogBuilder::new "-" "-" Info m`, i.e. a builder with subsystem `-`,
controller `-`, level `Info`, cid `-`, message `m`, colorize on, no
explicit timestamp and empty data/detail lists. -/
theorem C10_msgOnly_defaults (m : Str) :
    LogBuilder.msgOnly m = LogBuilder.new (str "-") (str "-") .Info m
      ∧ LogBuilder.msgOnly m =
        { timestamp := none
          subsystem := str "-"
          controller := str "-"
          level := .Info
          cid := str "-"
          msg := m
          data := []
          details := []
          colorize := true } :=
  ⟨rfl, rfl⟩

/-- Claim C6: `Level::from_str` is case-insensitive (it only depends on
the ASCII-lowercased input), matches the six names
`trace, debug, info, warn, warning, error` (with `warning` a synonym for
`Warn`), round-trips every printed level name back to the level, and
returns `none` — not an error — on every other string. -/
theorem C6_from_str_parsing :
    (∀ s : Str, Level.from_str s = Level.from_str (asciiLower s))
  ∧ (Level.from_str (str "trace") = some .Trace
      ∧ Level.from_str (str "debug") = some .Debug
      ∧ Level.from_str (str "info") = some .Info
      ∧ Level.from_str (str "warn") = some .Warn
      ∧ Level.from_str (str "warning") = some .Warn
      ∧ Level.from_str (str "error") = some .Error)
  ∧ (∀ L : Level, Level.from_str (Level.as_str L) = some L)
  ∧ (∀ s : Str,
      asciiLower s ∉ [str "trace", str "debug", str "info",
        str "warn", str "warning", str "error"] →
      Level.from_str s = none) := by
  refine ⟨fun s => ?_, by decide, fun L => by cases L <;> decide, fun s h => ?_⟩
  · simp only [Level.from_str]
    rw [asciiLower_idem]
  · simp only [List.mem_cons, List.not_mem_nil, or_false, not_or] at h
    obtain ⟨h1, h2, h3, h4, h5, h6⟩ := h
    simp [Level.from_str, h1, h2, h3, h4, h5, h6]

/-- Witness for C6: a concrete string matching none of the level names
parses to `none`. -/
theorem C6_from_str_parsing_witness : Level.from_str (str "lcars") = none :=
  C6_from_str_parsing.2.2.2 (str "lcars") (by decide)

/-- Claim C2: with colorize off and an explicit timestamp, `build_lines`
equals the reference rendering (head, key/value block only when pairs
exist, one `  >` line per detail in order), yields exactly
`details.length + 1` lines, and the worked example with timestamp
2025-12-05T10:15:30Z renders exactly the quoted string. -/
theorem C2_build_lines_reference (resolver : ColorResolver) (now ts : Timestamp)
    (b : LogBuilder) (hc : b.colorize = false) (hts : b.timestamp = some ts) :
    LogBuilder.build_lines resolver now b = refRenderLines ts b
  ∧ (LogBuilder.build_lines resolver now b).length = b.details.length + 1
  ∧ LogBuilder.build_lines gruvbox_dark ⟨1, 1, 1, 0, 0, 0⟩ exampleBuilder
      = [str "2025.1205.10:15:30|SSYS=db|CTRL=migrator|LVL=INFO|CID=op12|MSG=Migration applied|name:2025-12-01-001-rbac dur_ms:214"] := by
  have href : LogBuilder.build_lines resolver now b = refRenderLines ts b := by
    simp only [LogBuilder.build_lines, refRenderLines, hts, hc, Option.getD_some,
      Bool.false_eq_true, if_false]
    cases b.data <;> cases hdet : b.details <;>
      simp [List.isEmpty, hdet]
  refine ⟨href, ?_, ?_⟩
  · rw [href]
    simp [refRenderLines]
  · decide

/-- Witness for C2: the theorem applied at the spec's worked example. -/
theorem C2_build_lines_reference_witness :
    LogBuilder.build_lines gruvbox_dark ⟨1, 1, 1, 0, 0, 0⟩ exampleBuilder
      = refRenderLines ⟨2025, 12, 5, 10, 15, 30⟩ exampleBuilder :=
  (C2_build_lines_reference gruvbox_dark ⟨1, 1, 1, 0, 0, 0⟩
    ⟨2025, 12, 5, 10, 15, 30⟩ exampleBuilder (by decide) (by decide)).1

/-- Claim C1: `log_line` returns the rendered text and broadcasts it
exactly when the builder's level is enabled against the global
threshold; when disabled it returns `none` and leaves the state — every
subscriber queue included — untouched; `print` additionally writes the
`\n`-separated lines to stdout when enabled and performs no I/O when
disabled; with the global level at `Error`, only `Error`-level emits are
enabled. -/
theorem C1_emit_gating (resolver : ColorResolver) (now : Timestamp)
    (b : LogBuilder) (st : LogState) :
    log_line resolver now b st =
      (if b.level.enabled (global_level st) then
        (some (LogBuilder.build resolver now b),
          broadcast_log_line (LogBuilder.build resolver now b) st)
      else (none, st))
  ∧ printLog resolver now b st =
      (if b.level.enabled (global_level st) then
        (some (), splitOnChar '\n' (LogBuilder.build resolver now b),
          broadcast_log_line (LogBuilder.build resolver now b) st)
      else (none, [], st))
  ∧ Level.enabled b.level .Error = decide (b.level = .Error)
  ∧ (global_level st = .Error →
      (b.level ≠ .Error → log_line resolver now b st = (none, st))
    ∧ (b.level = .Error →
        log_line resolver now b st =
          (some (LogBuilder.build resolver now b),
            broadcast_log_line (LogBuilder.build resolver now b) st))) := by
  have herr : ∀ L : Level, Level.enabled L .Error = decide (L = .Error) := by
    intro L
    cases L <;> rfl
  refine ⟨?_, ?_, herr b.level, fun hgl => ⟨fun hne => ?_, fun heq => ?_⟩⟩
  · by_cases he : b.level.enabled (global_level st) <;> simp [log_line, he]
  · by_cases he : b.level.enabled (global_level st) <;>
      simp [printLog, log_line, he]
  · have : b.level.enabled (global_level st) = false := by
      rw [hgl, herr b.level, decide_eq_false hne]
    simp [log_line, this]
  · have : b.level.enabled (global_level st) = true := by
      rw [hgl, herr b.level, decide_eq_true_eq]
      exact heq
    simp [log_line, this]

/-- Witness for C1: with the global level at `Error`, a concrete `Warn`
emit returns `none` and changes nothing. -/
theorem C1_emit_gating_witness :
    log_line gruvbox_dark ⟨1, 1, 1, 0, 0, 0⟩
        (LogBuilder.new (str "db") (str "m") .Warn (str "x"))
        ⟨Level.Error.toU8, []⟩
      = (none, ⟨Level.Error.toU8, []⟩) :=
  ((C1_emit_gating gruvbox_dark ⟨1, 1, 1, 0, 0, 0⟩
      (LogBuilder.new (str "db") (str "m") .Warn (str "x"))
      ⟨Level.Error.toU8, []⟩).2.2.2 rfl).1 (by decide)

/-- Claim C4: one broadcast pass delivers the text to every open
subscriber queue (in registry order) and removes exactly the closed
ones, surfacing no error; with zero subscribers it is a no-op; after a
subscriber's handle is dropped, a subsequent broadcast leaves no
subscriber with its id in the registry. -/
theorem C4_broadcast_delivery_and_pruning (line : Str) (st : LogState) :
    broadcast_log_line line st =
      { st with
          subscribers := (st.subscribers.filter (fun s => !s.closed)).map
            (fun s => { s with queue := s.queue ++ [line] }) }
  ∧ (st.subscribers = [] → broadcast_log_line line st = st)
  ∧ (∀ id : Nat, ∀ s ∈ (broadcast_log_line line (drop_subscriber id st)).subscribers,
      s.id ≠ id) := by
  refine ⟨?_, fun hempty => ?_, fun id s hs => ?_⟩
  · unfold broadcast_log_line
    rw [filterMap_broadcast_eq]
  · rcases st with ⟨lc, subs⟩
    obtain rfl : subs = [] := hempty
    rfl
  · simp only [broadcast_log_line, drop_subscriber, List.mem_filterMap,
      List.mem_map] at hs
    obtain ⟨a, ⟨orig, _, horig⟩, hfa⟩ := hs
    by_cases hid : orig.id = id
    · rw [if_pos hid] at horig
      subst horig
      simp at hfa
    · rw [if_neg hid] at horig
      subst horig
      split at hfa
      · exact absurd hfa (by simp)
      · cases hfa
        exact hid

/-- Witness for C4: on a concrete registry, broadcasting to no
subscribers is a no-op, and after dropping subscriber 1, a broadcast
leaves a registry in which the surviving entry's id is not 1. -/
theorem C4_broadcast_delivery_and_pruning_witness :
    broadcast_log_line (str "x") ⟨2, []⟩ = ⟨2, []⟩
  ∧ ({ id := 2, closed := false, queue := [str "x"] } : Subscriber).id ≠ 1 :=
  ⟨(C4_broadcast_delivery_and_pruning (str "x") ⟨2, []⟩).2.1 rfl,
    (C4_broadcast_delivery_and_pruning (str "x")
      ⟨2, [⟨1, false, []⟩, ⟨2, false, []⟩]⟩).2.2 1
      ⟨2, false, [str "x"]⟩ (by decide)⟩

/-- Counterexample to claim C7 as stated: on the line `t|a:b:c`, the
tail token `a:b:c` contains more than one `:`, so per the claim it must
pass through unchanged; the code instead splits it at the first `:` and
colors both halves. -/
theorem C7_token_rule_counterexample :
    apply_colors gruvbox_dark (str "t|a:b:c") .Info
      ≠ colorLineClaim gruvbox_dark (str "t|a:b:c") .Info := by
  decide

/-- Claim C7 (amended): the recoloring colors segment 0 with the header
color, `SSYS=`/`CTRL=` segments with the context color, `LVL=` with the
level color, `CID=` with the correlation-id color, `MSG=` with the
message color, and in remaining tail segments tokenizes on whitespace,
splitting and coloring every token containing at least one `:` at its
first `:` (key color, value color, rejoined with `:`), while tokens
without `:` pass through — the pipes staying uncolored. -/
theorem C7_recolor_rule (resolver : ColorResolver) (line : Str) (level : Level) :
    apply_colors resolver line level = colorLineRef resolver line level :=
  apply_colors_eq_ref resolver line level

/-- Counterexample to claim C8 as stated: a composed head line whose
key/value tail holds a value with a double space. Recoloring tokenizes
the tail on whitespace and rejoins with single spaces, so stripping the
escapes afterwards does not recover the original line. -/
theorem C8_strip_counterexample :
    LogBuilder.build_lines gruvbox_dark ⟨1, 1, 1, 0, 0, 0⟩ cexBuilder
        = [str "2025.1205.10:15:30|SSYS=db|CTRL=m|LVL=INFO|CID=-|MSG=x|k:a  b"]
      ∧ stripAnsi (apply_colors gruvbox_dark
            (str "2025.1205.10:15:30|SSYS=db|CTRL=m|LVL=INFO|CID=-|MSG=x|k:a  b") .Info)
          ≠ str "2025.1205.10:15:30|SSYS=db|CTRL=m|LVL=INFO|CID=-|MSG=x|k:a  b" := by
  constructor <;> decide

/-- Claim C8 (amended): for every pipe-delimited head line containing no
escape character and whose key/value tail segments are already
whitespace-normalized (single spaces between tokens, as `build_lines`
emits when keys and values contain no whitespace), and for every
severity and well-formed palette, removing all ANSI escape sequences
from the recolored output yields the original line character for
character. -/
theorem C8_strip_recolor_roundtrip (resolver : ColorResolver) (line : Str)
    (level : Level) (hpal : goodPalette (resolver level)) (hne : noEsc line)
    (hnorm : ∀ q ∈ (splitOnChar '|' line).enum,
      q.1 = 0 ∨ prefixedSeg q.2 = true ∨ tailNormalized q.2) :
    stripAnsi (apply_colors resolver line level) = line := by
  rw [apply_colors_eq_ref]
  unfold stripAnsi colorLineRef
  have hparts : ∀ part ∈ splitOnChar '|' line, noEsc part := by
    intro part hpart hmem
    apply hne
    have hjoin : '\x1b' ∈ joinSep ['|'] (splitOnChar '|' line) :=
      mem_joinSep ['|'] _ part hpart _ hmem
    rwa [joinSep_splitOnChar] at hjoin
  have hall : ∀ q ∈ (splitOnChar '|' line).enum,
      noEsc q.2 ∧ (q.1 = 0 ∨ prefixedSeg q.2 = true ∨ tailNormalized q.2) := by
    intro q hq
    refine ⟨?_, hnorm q hq⟩
    apply hparts
    have hm : q.2 ∈ (splitOnChar '|' line).enum.map Prod.snd :=
      List.mem_map_of_mem _ hq
    rw [show (splitOnChar '|' line).enum
        = (splitOnChar '|' line).enumFrom 0 from rfl,
      List.enumFrom_map_snd] at hm
    exact hm
  have h := strip_joinSep_segments hpal ((splitOnChar '|' line).enum) hall []
  rw [show stripAnsiAux false ([] : Str) = [] from rfl, List.append_nil,
    List.append_nil] at h
  rw [h, show (splitOnChar '|' line).enum
      = (splitOnChar '|' line).enumFrom 0 from rfl,
    List.enumFrom_map_snd, show str "|" = ['|'] from rfl, joinSep_splitOnChar]

/-- Witness for C8 (amended): the spec's worked-example head line
recolors and strips back to itself. -/
theorem C8_strip_recolor_roundtrip_witness :
    stripAnsi (apply_colors gruvbox_dark
        (str "2025.1205.10:15:30|SSYS=db|CTRL=migrator|LVL=INFO|CID=op12|MSG=Migration applied|name:2025-12-01-001-rbac dur_ms:214") .Info)
      = str "2025.1205.10:15:30|SSYS=db|CTRL=migrator|LVL=INFO|CID=op12|MSG=Migration applied|name:2025-12-01-001-rbac dur_ms:214" :=
  C8_strip_recolor_roundtrip gruvbox_dark _ .Info (by decide) (by decide) (by decide)

/-- Claim C5: a subscriber created by `subscribe_logs`, followed by any
sequence of emits, ends up with exactly the rendered strings of the
at-or-above-threshold emits in its queue, in emit order: below-threshold
emits and anything emitted before the subscription contribute nothing. -/
theorem C5_subscriber_fifo (resolver : ColorResolver) (now : Timestamp)
    (bs : List LogBuilder) (st : LogState) (id : Nat) :
    ({ id := id, closed := false,
        queue := (bs.filter (fun b => b.level.enabled (global_level st))).map
          (LogBuilder.build resolver now) } : Subscriber)
      ∈ (run_emits resolver now bs (subscribe_logs id st)).subscribers := by
  have hmem : ({ id := id, closed := false, queue := [] } : Subscriber)
      ∈ (subscribe_logs id st).subscribers := by
    simp [subscribe_logs]
  have h := mem_run_emits resolver now bs (subscribe_logs id st)
    { id := id, closed := false, queue := [] } hmem rfl
  simpa using h

end RsysLog
